import Mathlib

/-!
Verification of the `egui_typed_input` core: the `ValText` buffer
(src/src/lib.rs) and its policy library (src/src/impls.rs).

Rust strings are modelled as lists of Unicode scalar values (`Str`), with the
byte-level views (`str::len`, `str::as_bytes`) recovered through an explicit
UTF-8 encoding function, since the percentage validators measure lengths in
bytes and index the raw byte array.  A computation that would panic in Rust
(out-of-bounds byte indexing) is modelled as `none`.
-/

/-- The character content of a Rust `String`/`&str` (always valid UTF-8). -/
abbrev Str := List Char

/-- UTF-8 encoding of one Unicode scalar value. -/
def utf8Bytes (c : Char) : List Nat :=
  if c.toNat < 0x80 then [c.toNat]
  else if c.toNat < 0x800 then [0xC0 + c.toNat / 0x40, 0x80 + c.toNat % 0x40]
  else if c.toNat < 0x10000 then
    [0xE0 + c.toNat / 0x1000, 0x80 + c.toNat / 0x40 % 0x40, 0x80 + c.toNat % 0x40]
  else
    [0xF0 + c.toNat / 0x40000, 0x80 + c.toNat / 0x1000 % 0x40,
      0x80 + c.toNat / 0x40 % 0x40, 0x80 + c.toNat % 0x40]

/-- The byte sequence of a string, as produced by Rust `str::as_bytes`. -/
def utf8Encode : Str → List Nat
  | [] => []
  | c :: r => utf8Bytes c ++ utf8Encode r

/-- Rust `str::len`: the length in bytes. -/
def byteLen (s : Str) : Nat := (utf8Encode s).length

/-- Rust `str::as_bytes()[k]`; `none` models the out-of-bounds panic. -/
def byteAt (s : Str) (k : Nat) : Option Nat := (utf8Encode s).get? k

/-- Rust `str::starts_with(c)` for a single-character pattern. -/
def headIs (s : Str) (c : Char) : Bool :=
  match s with
  | [] => false
  | d :: _ => d == c

/-- Rust `str::starts_with(p)` for a string pattern (byte prefix = char prefix
for the ASCII patterns used by the source). -/
def startsWith : Str → Str → Bool
  | _, [] => true
  | [], _ :: _ => false
  | c :: cs, d :: ds => c == d && startsWith cs ds

/-- Rust `str::contains(c)` for a single-character pattern. -/
def containsChar (s : Str) (c : Char) : Bool := s.any (fun d => d == c)

/-- The characters before the first `'.'`; `none` when there is no dot
(Rust `str::split_once('.')`, keeping only the pre-dot part). -/
def preDot : Str → Option Str
  | [] => none
  | c :: r => if c == '.' then some [] else (preDot r).map (fun p => c :: p)

/-- `current_text_no_des_len` of the percentage validators: the byte length of
the text before any decimal point (full byte length when no dot exists). -/
def wholeLen (t : Str) : Nat :=
  match preDot t with
  | some p => byteLen p
  | none => byteLen t

/-- Rust `char::is_ascii_hexdigit`. -/
def isAsciiHexDigit (c : Char) : Bool :=
  c.isDigit || (decide ('A' ≤ c) && decide (c ≤ 'F')) || (decide ('a' ≤ c) && decide (c ≤ 'f'))

/-! ### Input validators of the policy library (src/src/impls.rs) -/

/-- `input_validator` of `ValText::number` (impls.rs lines 37-46):
digits always, a single leading `+`/`-` candidate only at index 0, and `.`
allowed while the current text has no dot. -/
def numberValidator (currentText s : Str) (i : Nat) : Bool :=
  (if i = 0 then headIs s '+' || headIs s '-' else false)
  || s.all (fun c => (if !(containsChar currentText '.') then c == '.' else false) || c.isDigit)

/-- `input_validator` of `ValText::number_int` (impls.rs lines 59-64). -/
def numberIntValidator (_currentText s : Str) (i : Nat) : Bool :=
  (if i = 0 then headIs s '+' || headIs s '-' else false)
  || s.all (fun c => c.isDigit)

/-- `input_validator` of `ValText::number_uint` (impls.rs lines 77-82). -/
def numberUintValidator (_currentText s : Str) (i : Nat) : Bool :=
  (if i = 0 then headIs s '+' else false)
  || s.all (fun c => c.isDigit)

/-- `input_validator` of `ValText::color_hex` (impls.rs lines 17-22). -/
def colorHexValidator (_currentText s : Str) (i : Nat) : Bool :=
  if i = 0 then headIs s '#'
  else s.all isAsciiHexDigit

/-- `all_num_or_dot` of the float percentage validators (impls.rs lines
131-135): every candidate character is a digit, or a `'.'` when the current
text has no dot yet. -/
def allNumOrDot (currentText s : Str) : Bool :=
  s.all (fun c => (if !(containsChar currentText '.') then c == '.' else false) || c.isDigit)

/-- The part of the float percentage validator after the early returns
(impls.rs lines 142-154). -/
def percentageFloatTail (currentText s : Str) (i : Nat) : Bool :=
  if wholeLen currentText = 2 then
    if headIs s '.' && allNumOrDot currentText s then true
    else if s == ['0'] then startsWith currentText ['1', '0'] && !(containsChar currentText '.')
    else false
  else
    (if i = 0 then headIs s '+' else false) || allNumOrDot currentText s

/-- `input_validator` of `ValText::<f64>::percentage` (impls.rs lines 125-155);
the `f32` variant at lines 183-213 is the identical code.  The byte read
`current_text.as_bytes()[i.saturating_sub(1)]` at line 137 panics when the
index is out of bounds; that abort is modelled as `none`. -/
def percentageFloatValidator (currentText s : Str) (i : Nat) : Option Bool :=
  if wholeLen currentText + byteLen s > 3 ∧ containsChar currentText '.' = false then some false
  else if currentText.isEmpty then some (percentageFloatTail currentText s i)
  else
    match byteAt currentText (i - 1) with
    | none => none
    | some b =>
      if b == 0x2E && allNumOrDot currentText s then some true
      else some (percentageFloatTail currentText s i)

/-- `input_validator` of `ValText::<u32>::percentage_uint`
(impls.rs lines 239-254). -/
def percentageUintValidator (currentText s : Str) (i : Nat) : Bool :=
  if byteLen currentText + byteLen s > 3 then false
  else if byteLen currentText = 2 then
    if s == ['0'] then startsWith currentText ['1', '0'] else false
  else
    (if i = 0 then headIs s '+' else false) || s.all (fun c => c.isDigit)

/-! ### Value parsers -/

/-- Error kinds of `core::num::ParseIntError`. -/
inductive IntErr where
  | empty
  | invalidDigit
  | posOverflow
deriving DecidableEq, Repr

/-- Error kind of `core::num::ParseFloatError` (never produced by the
definitions below; present so the error taxonomy is complete). -/
inductive FloatErr where
  | invalid
deriving DecidableEq, Repr

/-- Digit-string accumulation with the u32 overflow bound. -/
def parseU32Digits (s : Str) : Except IntErr Nat :=
  if s = [] then .error .invalidDigit
  else if s.all (fun c => c.isDigit) then
    let v := s.foldl (fun a c => 10 * a + (c.toNat - 0x30)) 0
    if v < 2 ^ 32 then .ok v else .error .posOverflow
  else .error .invalidDigit

/-- Modelled from the spec: the "generic unsigned parse" used by the unsigned
policies (Rust `u32::from_str`, dependency code not under src/): empty input is
the empty error, an optional leading `+` is stripped, a bare sign or any
non-digit is an invalid-digit error, and values of 2^32 or more overflow. -/
def parseU32 : Str → Except IntErr Nat
  | [] => .error .empty
  | ['+'] => .error .invalidDigit
  | '+' :: rest => parseU32Digits rest
  | s => parseU32Digits s

/-- `PercentageParseError` (impls.rs lines 87-99). -/
inductive PercentageParseError where
  | outOfRangeHigh
  | neg
  | parseFloat (e : FloatErr)
  | parseInt (e : IntErr)
deriving DecidableEq, Repr

/-- `value_parser` of `ValText::<u32>::percentage_uint` (impls.rs lines
226-238): parse as u32, then report values above 100 as out-of-range-high. -/
def percentageUintParse (s : Str) : Except PercentageParseError Nat :=
  match parseU32 s with
  | .ok num => if num > 100 then .error .outOfRangeHigh else .ok num
  | .error e => .error (.parseInt e)

/-- `egui::ecolor::ParseHexColorError`. -/
inductive ParseHexColorError where
  | missingHash
  | invalidInt
  | invalidLength
deriving DecidableEq, Repr

/-- `egui::Color32` as an (r, g, b, a) quadruple of byte values. -/
structure Color32 where
  r : Nat
  g : Nat
  b : Nat
  a : Nat
deriving DecidableEq, Repr

/-- Value of one ASCII hex digit. -/
def hexDigitVal (c : Char) : Option Nat :=
  if c.isDigit then some (c.toNat - 0x30)
  else if decide ('A' ≤ c) && decide (c ≤ 'F') then some (c.toNat - 0x41 + 10)
  else if decide ('a' ≤ c) && decide (c ≤ 'f') then some (c.toNat - 0x61 + 10)
  else none

/-- Values of a string of hex digits, `none` on the first invalid digit. -/
def hexVals : Str → Option (List Nat)
  | [] => some []
  | c :: r =>
    match hexDigitVal c, hexVals r with
    | some d, some ds => some (d :: ds)
    | _, _ => none

/-- Modelled from the spec: `egui::Color32::from_hex` (dependency code not
under src/) "parses 3-, 4-, 6-, or 8-hex-digit-group forms into a color;
failure kinds include missing leading marker and invalid digit/length".
A 3/4-digit form doubles each digit; a 3/6-digit form is fully opaque. -/
def fromHex (s : Str) : Except ParseHexColorError Color32 :=
  match s with
  | '#' :: rest =>
    match hexVals rest with
    | none => .error .invalidInt
    | some [r, g, b] => .ok ⟨17 * r, 17 * g, 17 * b, 255⟩
    | some [r, g, b, a] => .ok ⟨17 * r, 17 * g, 17 * b, 17 * a⟩
    | some [r1, r2, g1, g2, b1, b2] => .ok ⟨16 * r1 + r2, 16 * g1 + g2, 16 * b1 + b2, 255⟩
    | some [r1, r2, g1, g2, b1, b2, a1, a2] =>
      .ok ⟨16 * r1 + r2, 16 * g1 + g2, 16 * b1 + b2, 16 * a1 + a2⟩
    | some _ => .error .invalidLength
  | _ => .error .missingHash

/-! ### The `ValText` buffer (src/src/lib.rs) -/

/-- `ValText<T, E>` (lib.rs lines 18-26).  The stored closures become function
fields; `input_validator` returns `Option Bool` so that a validator that can
panic (the float percentage ones) is representable, `none` meaning abort. -/
structure ValText (T E : Type) where
  text : Str
  parsedVal : Option (Except E T)
  valueParser : Str → Except E T
  inputValidator : Str → Str → Nat → Option Bool

/-- `ValText::get_val` (lib.rs lines 49-54). -/
def getVal {T E : Type} (b : ValText T E) : Option (Except E T) := b.parsedVal

/-- `ValText::is_valid` (lib.rs lines 56-58). -/
def isValidB {T E : Type} (b : ValText T E) : Bool :=
  match b.parsedVal with
  | some (.ok _) => true
  | _ => false

/-- `ValText::set_val` (lib.rs lines 153-158); the `Display` rendering of the
value is passed explicitly.  The cache is set to `Ok(val)` directly, without
running the parser. -/
def setVal {T E : Type} (display : T → Str) (b : ValText T E) (v : T) : ValText T E :=
  { b with text := display v, parsedVal := some (.ok v) }

/-- `TextBuffer::insert_text` for `ValText` (lib.rs lines 181-189): consult the
validator on the pre-mutation text; on accept, splice the candidate at the
(clamped) character index as egui's `String` buffer does, recompute the cache,
and return the candidate's character count; on reject return 0 unchanged.
`none` propagates a validator abort. -/
def insertText {T E : Type} (b : ValText T E) (s : Str) (i : Nat) :
    Option (ValText T E × Nat) :=
  match b.inputValidator b.text s i with
  | none => none
  | some false => some (b, 0)
  | some true =>
    let t := b.text.take i ++ s ++ b.text.drop i
    some ({ b with text := t, parsedVal := some (b.valueParser t) }, s.length)

/-- `TextBuffer::delete_char_range` for `ValText` (lib.rs lines 191-194):
unconditionally remove the character range (clamped, as egui's `String` buffer
does) and recompute the cache.  The underlying buffer asserts `start ≤ end`;
`none` models that abort. -/
def deleteCharRange {T E : Type} (b : ValText T E) (a e : Nat) : Option (ValText T E) :=
  if a ≤ e then
    let t := b.text.take a ++ b.text.drop e
    some { b with text := t, parsedVal := some (b.valueParser t) }
  else none

/-! ### Policy factory constructors -/

/-- `ValText::<u32>::percentage_uint` (impls.rs lines 222-256). -/
def percentageUint : ValText Nat PercentageParseError :=
  { text := []
    parsedVal := none
    valueParser := percentageUintParse
    inputValidator := fun c s i => some (percentageUintValidator c s i) }

/-- `ValText::color_hex` (impls.rs lines 10-24): the cache is pre-seeded with
the missing-leading-marker error at construction. -/
def colorHex : ValText Color32 ParseHexColorError :=
  { text := []
    parsedVal := some (.error .missingHash)
    valueParser := fromHex
    inputValidator := fun c s i => some (colorHexValidator c s i) }

/-! ### Operation sequences and reachability -/

/-- One host call on a buffer: an insert of a candidate at a character index,
or a delete of a character range. -/
inductive Op where
  | ins (s : Str) (i : Nat)
  | del (a e : Nat)

/-- Apply one call, keeping only the post-state. -/
def applyOp {T E : Type} (b : ValText T E) : Op → Option (ValText T E)
  | .ins s i => (insertText b s i).map Prod.fst
  | .del a e => deleteCharRange b a e

/-- Apply a sequence of calls left to right; `none` if any call aborts. -/
def applyAll {T E : Type} (b : ValText T E) : List Op → Option (ValText T E)
  | [] => some b
  | op :: ops =>
    match applyOp b op with
    | some b2 => applyAll b2 ops
    | none => none

/-- Texts reachable from the empty buffer through inserts accepted by the
unsigned-int percentage validator. -/
inductive ReachableUint : Str → Prop where
  | base : ReachableUint []
  | step (t s : Str) (i : Nat) (ht : ReachableUint t)
      (hv : percentageUintValidator t s i = true) :
      ReachableUint (t.take i ++ s ++ t.drop i)

instance {E T : Type} [DecidableEq E] [DecidableEq T] : DecidableEq (Except E T)
  | .ok a, .ok b => if h : a = b then .isTrue (by rw [h]) else .isFalse (by simp [h])
  | .ok _, .error _ => .isFalse (by simp)
  | .error _, .ok _ => .isFalse (by simp)
  | .error a, .error b => if h : a = b then .isTrue (by rw [h]) else .isFalse (by simp [h])

/-! ### Helper lemmas -/

theorem utf8Encode_append (a b : Str) :
    utf8Encode (a ++ b) = utf8Encode a ++ utf8Encode b := by
  induction a with
  | nil => simp [utf8Encode]
  | cons c r ih => simp [utf8Encode, ih]

theorem byteLen_append (a b : Str) : byteLen (a ++ b) = byteLen a + byteLen b := by
  simp [byteLen, utf8Encode_append]

theorem byteLen_cons (c : Char) (r : Str) :
    byteLen (c :: r) = (utf8Bytes c).length + byteLen r := by
  simp [byteLen, utf8Encode]

theorem utf8Bytes_length_pos (c : Char) : 1 ≤ (utf8Bytes c).length := by
  unfold utf8Bytes
  split
  · simp
  · split
    · simp
    · split <;> simp

theorem byteLen_eq_zero {s : Str} : byteLen s = 0 ↔ s = [] := by
  cases s with
  | nil => simp [byteLen, utf8Encode]
  | cons c r =>
    simp only [byteLen_cons]
    constructor
    · intro h
      have := utf8Bytes_length_pos c
      omega
    · intro h
      exact absurd h (by simp)

theorem byteLen_le_one {s : Str} (h : byteLen s ≤ 1) : s = [] ∨ ∃ c, s = [c] := by
  cases s with
  | nil => exact Or.inl rfl
  | cons c r =>
    right
    refine ⟨c, ?_⟩
    rw [byteLen_cons] at h
    have h1 := utf8Bytes_length_pos c
    have h2 : byteLen r = 0 := by omega
    rw [byteLen_eq_zero.mp h2]

theorem toNat_dot {c : Char} (h : c.toNat = 0x2E) : c = '.' := by
  have h2 := Char.ofNat_toNat c
  rw [h] at h2
  rw [show Char.ofNat 0x2E = '.' from by decide] at h2
  exact h2.symm

theorem mem_utf8Bytes_dot {c : Char} : (0x2E ∈ utf8Bytes c) ↔ c = '.' := by
  unfold utf8Bytes
  split
  · simp only [List.mem_singleton]
    constructor
    · intro h
      exact toNat_dot h.symm
    · intro h
      subst h
      rfl
  · rename_i hge
    have hne : ¬ c = '.' := by
      intro h
      subst h
      exact hge (by decide)
    split
    · simp only [List.mem_cons, List.not_mem_nil, or_false]
      constructor
      · intro h
        rcases h with h | h <;> omega
      · intro h
        exact absurd h hne
    · split
      · simp only [List.mem_cons, List.not_mem_nil, or_false]
        constructor
        · intro h
          rcases h with h | h | h <;> omega
        · intro h
          exact absurd h hne
      · simp only [List.mem_cons, List.not_mem_nil, or_false]
        constructor
        · intro h
          rcases h with h | h | h | h <;> omega
        · intro h
          exact absurd h hne

theorem mem_utf8Encode_dot {t : Str} : (0x2E ∈ utf8Encode t) ↔ '.' ∈ t := by
  induction t with
  | nil => simp [utf8Encode]
  | cons c r ih =>
    simp only [utf8Encode, List.mem_append, ih, mem_utf8Bytes_dot, List.mem_cons]
    constructor
    · intro h
      rcases h with h | h
      · exact Or.inl h.symm
      · exact Or.inr h
    · intro h
      rcases h with h | h
      · exact Or.inl h.symm
      · exact Or.inr h

theorem containsChar_iff {t : Str} {c : Char} : containsChar t c = true ↔ c ∈ t := by
  simp only [containsChar, List.any_eq_true, beq_iff_eq]
  constructor
  · rintro ⟨x, hx, rfl⟩
    exact hx
  · intro h
    exact ⟨c, h, rfl⟩

theorem preDot_eq_none {t : Str} (h : containsChar t '.' = false) : preDot t = none := by
  induction t with
  | nil => rfl
  | cons c r ih =>
    simp only [containsChar, List.any_cons, Bool.or_eq_false_iff] at h
    unfold preDot
    rw [if_neg (by simp [h.1])]
    rw [ih (by simp [containsChar, h.2])]
    rfl

theorem all_eq_false_of_mem {p : Char → Bool} {s : Str} {c : Char}
    (hm : c ∈ s) (hp : p c = false) : s.all p = false := by
  cases hall : s.all p
  · rfl
  · have := (List.all_eq_true.mp hall) c hm
    rw [hp] at this
    exact Bool.noConfusion this

theorem signPred_false {t : Str} {c : Char} (h : c = '+' ∨ c = '-') :
    ((if !(containsChar t '.') then c == '.' else false) || c.isDigit) = false := by
  rcases h with rfl | rfl <;> cases hd : containsChar t '.' <;> simp [hd]

/-! ### Claim theorems -/

/-- Claim C3: insert rejection is atomic.  If the validator answers `false`,
`insert_text` returns 0 with text and cache byte-for-byte unchanged; if it
answers `true`, the whole candidate is spliced at the character index, the
cache is recomputed from the new text, and the candidate's character count is
returned. -/
theorem insert_rejection_atomic {T E : Type} (b : ValText T E) (s : Str) (i : Nat) :
    (b.inputValidator b.text s i = some false → insertText b s i = some (b, 0))
    ∧ (b.inputValidator b.text s i = some true →
      insertText b s i =
        some ({ b with
                  text := b.text.take i ++ s ++ b.text.drop i,
                  parsedVal := some (b.valueParser (b.text.take i ++ s ++ b.text.drop i)) },
          s.length)) := by
  constructor <;> intro h <;> simp [insertText, h]

/-- Witness for C3: on the unsigned percentage buffer, `"+"` at index 1 is
rejected leaving the buffer untouched, and `"9"` at index 0 is spliced in
whole. -/
theorem insert_rejection_atomic_witness :
    insertText percentageUint ['+'] 1 = some (percentageUint, 0)
    ∧ insertText percentageUint ['9'] 0 =
      some ({ percentageUint with
                text := ['9'],
                parsedVal := some (percentageUint.valueParser ['9']) }, 1) := by
  exact ⟨(insert_rejection_atomic percentageUint ['+'] 1).1 rfl,
    (insert_rejection_atomic percentageUint ['9'] 0).2 rfl⟩

/-- Claim C7: a candidate that yields syntactically valid but semantically
invalid text is accepted and surfaces through the cache as an error value:
inserting `"150"` at 0 into a fresh unsigned-int percentage buffer returns 3,
sets the text to `"150"`, and leaves the cache holding the out-of-range-high
error, with `is_valid()` false. -/
theorem reject_vs_error_distinct :
    (insertText percentageUint ['1', '5', '0'] 0).map
        (fun p => (p.1.text, getVal p.1, isValidB p.1, p.2))
      = some (['1', '5', '0'],
          some (Except.error PercentageParseError.outOfRangeHigh), false, 3) := rfl

/-- Claim C8: hex-color lifecycle.  A fresh buffer is invalid with the
missing-leading-marker error; `"#"` at 0 is accepted (1 char) and the cache
still holds an error; `"FF0000"` at 1 yields `"#FF0000"` whose cached parse is
fully-opaque red. -/
theorem color_hex_lifecycle :
    isValidB colorHex = false
    ∧ getVal colorHex = some (Except.error ParseHexColorError.missingHash)
    ∧ (insertText colorHex ['#'] 0).map (fun p => (p.1.text, isValidB p.1, (getVal p.1).isSome, p.2))
      = some (['#'], false, true, 1)
    ∧ ((insertText colorHex ['#'] 0).bind
          (fun p => insertText p.1 ['F', 'F', '0', '0', '0', '0'] 1)).map
        (fun p => (p.1.text, getVal p.1, p.2))
      = some (['#', 'F', 'F', '0', '0', '0', '0'],
          some (Except.ok ⟨255, 0, 0, 255⟩), 6) :=
  ⟨rfl, rfl, rfl, rfl⟩

/-- Claim C9: for the number, integer and unsigned-integer policies, a
candidate whose first character is a permitted sign is accepted in its
entirety at index 0 whatever its remaining characters, while at any other
index a candidate carrying a sign character is always rejected. -/
theorem sign_only_at_index_zero :
    (∀ t s : Str, headIs s '+' = true ∨ headIs s '-' = true → numberValidator t s 0 = true)
    ∧ (∀ (t s : Str) (i : Nat), i ≠ 0 →
        containsChar s '+' = true ∨ containsChar s '-' = true → numberValidator t s i = false)
    ∧ (∀ t s : Str, headIs s '+' = true ∨ headIs s '-' = true → numberIntValidator t s 0 = true)
    ∧ (∀ (t s : Str) (i : Nat), i ≠ 0 →
        containsChar s '+' = true ∨ containsChar s '-' = true → numberIntValidator t s i = false)
    ∧ (∀ t s : Str, headIs s '+' = true → numberUintValidator t s 0 = true)
    ∧ (∀ (t s : Str) (i : Nat), i ≠ 0 →
        containsChar s '+' = true → numberUintValidator t s i = false) := by
  refine ⟨?_, ?_, ?_, ?_, ?_, ?_⟩
  · intro t s h
    rcases h with h | h <;> simp [numberValidator, h]
  · intro t s i hi h
    unfold numberValidator
    rw [if_neg hi, Bool.false_or]
    rcases h with h | h
    · exact all_eq_false_of_mem (containsChar_iff.mp h) (signPred_false (Or.inl rfl))
    · exact all_eq_false_of_mem (containsChar_iff.mp h) (signPred_false (Or.inr rfl))
  · intro t s h
    rcases h with h | h <;> simp [numberIntValidator, h]
  · intro t s i hi h
    unfold numberIntValidator
    rw [if_neg hi, Bool.false_or]
    rcases h with h | h <;>
      exact all_eq_false_of_mem (containsChar_iff.mp h) (by decide)
  · intro t s h
    simp [numberUintValidator, h]
  · intro t s i hi h
    unfold numberUintValidator
    rw [if_neg hi, Bool.false_or]
    exact all_eq_false_of_mem (containsChar_iff.mp h) (by decide)

/-- Witness for C9: `"+abc"` at index 0 is accepted whole by the unsigned
policy, and a bare `"+"` at index 1 is rejected by the number policy. -/
theorem sign_only_at_index_zero_witness :
    numberUintValidator [] ['+', 'a', 'b', 'c'] 0 = true
    ∧ numberValidator ['1'] ['+'] 1 = false := by
  exact ⟨sign_only_at_index_zero.2.2.2.2.1 [] ['+', 'a', 'b', 'c'] rfl,
    sign_only_at_index_zero.2.1 ['1'] ['+'] 1 (by decide) (Or.inl rfl)⟩

/-- Claim C10: the unsigned-int percentage parser never produces the negative
error: every input either succeeds with a value of at most 100, fails
out-of-range-high, or fails with a wrapped integer-parse error. -/
theorem percentage_uint_parse_no_neg (s : Str) :
    percentageUintParse s ≠ Except.error PercentageParseError.neg
    ∧ ((∃ v, percentageUintParse s = Except.ok v ∧ v ≤ 100)
      ∨ percentageUintParse s = Except.error PercentageParseError.outOfRangeHigh
      ∨ ∃ e, percentageUintParse s = Except.error (PercentageParseError.parseInt e)) := by
  unfold percentageUintParse
  cases h : parseU32 s with
  | ok n =>
    by_cases hn : n > 100
    · simp [hn]
    · simp only [if_neg hn]
      refine ⟨by simp, Or.inl ⟨n, rfl, by omega⟩⟩
  | error e =>
    refine ⟨by simp, Or.inr (Or.inr ⟨e, rfl⟩)⟩

theorem applyOp_coherent_or_eq {T E : Type} (b b2 : ValText T E) (op : Op)
    (h : applyOp b op = some b2) :
    getVal b2 = some (b2.valueParser b2.text) ∨ b2 = b := by
  cases op with
  | ins s i =>
    simp only [applyOp, insertText] at h
    cases hv : b.inputValidator b.text s i with
    | none => rw [hv] at h; simp at h
    | some v =>
      rw [hv] at h
      cases v with
      | false =>
        simp at h
        exact Or.inr h.symm
      | true =>
        simp at h
        left
        rw [← h]
        rfl
  | del a e =>
    simp only [applyOp, deleteCharRange] at h
    split at h
    · simp at h
      left
      rw [← h]
      rfl
    · simp at h

/-- Claim C1 (amended): for every policy, after any sequence of insert/delete
calls from any starting buffer, either the cache equals the parser applied to
the current text, or the buffer is exactly the starting one (no call mutated
it: the sequence was empty or all inserts were rejected).  Every delete and
every accepted insert re-establishes coherence, and rejected inserts preserve
the state byte-for-byte.  (`set_val` is excluded: it writes `Ok(val)` into the
cache without running the parser, which can disagree with it.) -/
theorem valtext_cache_coherence {T E : Type} (b bf : ValText T E) (ops : List Op)
    (h : applyAll b ops = some bf) :
    getVal bf = some (bf.valueParser bf.text) ∨ bf = b := by
  induction ops generalizing b with
  | nil =>
    right
    simp only [applyAll] at h
    exact (Option.some.inj h).symm
  | cons op rest ih =>
    simp only [applyAll] at h
    cases hop : applyOp b op with
    | none => rw [hop] at h; exact absurd h (by simp)
    | some b2 =>
      rw [hop] at h
      rcases ih b2 h with hc | he
      · exact Or.inl hc
      · rcases applyOp_coherent_or_eq b b2 op hop with hc2 | he2
        · exact Or.inl (he ▸ hc2)
        · exact Or.inr (he.trans he2)

/-- Witness for C1: inserting `"150"` into a fresh unsigned percentage buffer
leaves a buffer whose cache is the parse of its text. -/
theorem valtext_cache_coherence_witness :
    getVal { percentageUint with
               text := ['1', '5', '0'],
               parsedVal := some (percentageUint.valueParser ['1', '5', '0']) }
        = some (percentageUint.valueParser ['1', '5', '0'])
      ∨ ({ percentageUint with
             text := ['1', '5', '0'],
             parsedVal := some (percentageUint.valueParser ['1', '5', '0']) } : ValText Nat PercentageParseError)
          = percentageUint :=
  valtext_cache_coherence percentageUint
    { percentageUint with
        text := ['1', '5', '0'],
        parsedVal := some (percentageUint.valueParser ['1', '5', '0']) }
    [Op.ins ['1', '5', '0'] 0] rfl

/-- Counterexample to C1 as stated: `set_val(150)` on the unsigned percentage
buffer writes text `"150"` and cache `Ok(150)`, but the policy's parser maps
`"150"` to the out-of-range-high error, so after this successful mutation the
cache differs from the parser applied to the current text. -/
theorem set_val_breaks_coherence :
    (setVal (fun n => Nat.toDigits 10 n) percentageUint 150).parsedVal
        = some (Except.ok 150)
    ∧ (setVal (fun n => Nat.toDigits 10 n) percentageUint 150).valueParser
        ((setVal (fun n => Nat.toDigits 10 n) percentageUint 150).text)
        = Except.error PercentageParseError.outOfRangeHigh
    ∧ (setVal (fun n => Nat.toDigits 10 n) percentageUint 150).parsedVal
        ≠ some ((setVal (fun n => Nat.toDigits 10 n) percentageUint 150).valueParser
            ((setVal (fun n => Nat.toDigits 10 n) percentageUint 150).text)) :=
  ⟨rfl, rfl, by decide⟩

/-- Claim C2 (amended): the unsigned-int percentage validator enforces the
three-byte cap — every text reachable from empty through accepted inserts has
byte length at most 3 — but it does not characterise `[0,100]` exactly (see
the counterexample). -/
theorem reachable_uint_byteLen_le (t : Str) (h : ReachableUint t) : byteLen t ≤ 3 := by
  induction h with
  | base => simp [byteLen, utf8Encode]
  | step t s i ht hv ih =>
    have hcap : ¬ byteLen t + byteLen s > 3 := by
      intro hgt
      unfold percentageUintValidator at hv
      rw [if_pos hgt] at hv
      exact Bool.noConfusion hv
    have h1 : byteLen (t.take i ++ s ++ t.drop i) = byteLen t + byteLen s := by
      rw [byteLen_append, byteLen_append]
      have h2 : byteLen (t.take i) + byteLen (t.drop i) = byteLen t := by
        rw [← byteLen_append, List.take_append_drop]
      omega
    omega

/-- Witness for C2: `"99"` is reachable and its byte length is at most 3. -/
theorem reachable_uint_byteLen_le_witness :
    ReachableUint ['9', '9'] ∧ byteLen ['9', '9'] ≤ 3 := by
  have h : ReachableUint ['9', '9'] :=
    ReachableUint.step [] ['9', '9'] 0 ReachableUint.base (by decide)
  exact ⟨h, reachable_uint_byteLen_le ['9', '9'] h⟩

/-- Counterexample to C2 as stated: from the reachable text `"90"`, inserting
`"0"` at index 0 would give `"090"`, which parses to the valid value 90 in
`[0,100]`, yet the validator rejects the insertion. -/
theorem percentage_uint_rejects_valid_text :
    ReachableUint ['9', '0']
    ∧ percentageUintValidator ['9', '0'] ['0'] 0 = false
    ∧ percentageUintParse (['9', '0'].take 0 ++ ['0'] ++ ['9', '0'].drop 0) = Except.ok 90 := by
  refine ⟨?_, by decide, by decide⟩
  exact ReachableUint.step [] ['9', '0'] 0 ReachableUint.base (by decide)

theorem byteAt_eq_none {t : Str} {k : Nat} : byteAt t k = none ↔ byteLen t ≤ k := by
  simp [byteAt, byteLen, List.get?_eq_none]

theorem byteAt_mem {t : Str} {k b : Nat} (h : byteAt t k = some b) : b ∈ utf8Encode t :=
  List.get?_mem h

theorem byteAt_lt_of_some {t : Str} {k b : Nat} (h : byteAt t k = some b) : k < byteLen t := by
  by_contra hk
  rw [show byteAt t k = none from byteAt_eq_none.mpr (by omega)] at h
  exact Option.noConfusion h

/-- Claim C5 (amended): the float percentage fast path keys on the insertion
position, not on the text ending in a dot: whenever the byte just before the
insertion index (at `i - 1`, saturated at 0) is a decimal point and the
candidate is digit-like, the insertion is accepted, bypassing the cap and
boundary rules. -/
theorem float_dot_path_accepts (t s : Str) (i : Nat)
    (h1 : byteAt t (i - 1) = some 0x2E) (h2 : allNumOrDot t s = true) :
    percentageFloatValidator t s i = some true := by
  have hmem : (0x2E : Nat) ∈ utf8Encode t := byteAt_mem h1
  have hdot : containsChar t '.' = true := containsChar_iff.mpr (mem_utf8Encode_dot.mp hmem)
  have htne : t.isEmpty = false := by
    cases t
    · simp [utf8Encode] at hmem
    · simp
  unfold percentageFloatValidator
  rw [if_neg (by simp [hdot])]
  rw [if_neg (by simp [htne])]
  rw [h1]
  simp [h2]

/-- Witness for C5: inserting `"5"` into `"1."` at index 2 (just after the
dot) is accepted. -/
theorem float_dot_path_accepts_witness :
    byteAt ['1', '.'] 1 = some 0x2E
    ∧ allNumOrDot ['1', '.'] ['5'] = true
    ∧ percentageFloatValidator ['1', '.'] ['5'] 2 = some true :=
  ⟨by decide, by decide, float_dot_path_accepts ['1', '.'] ['5'] 2 (by decide) (by decide)⟩

/-- Counterexample to C5 as stated: the text `"99."` ends in a decimal point
and the candidate `"0"` is digit-like, yet insertion at index 1 is rejected
(the fast path looks at the byte before the index, which is `'9'`, and the
two-digit boundary rule then rejects). -/
theorem float_dot_suffix_rejected :
    ['9', '9', '.'].getLast? = some '.'
    ∧ allNumOrDot ['9', '9', '.'] ['0'] = true
    ∧ percentageFloatValidator ['9', '9', '.'] ['0'] 1 = some false := by
  refine ⟨by decide, by decide, by decide⟩

/-- Claim C6 (amended): the built-in validators are total functions of
(text, candidate, index) with one exception: the float percentage validators
read the byte at `i - 1` of the current text and abort exactly when the early
length-cap rejection does not fire, the text is nonempty, and the index
exceeds the text's byte length.  The definedness domain is characterised
precisely below. -/
theorem float_validator_defined_iff (t s : Str) (i : Nat) :
    (percentageFloatValidator t s i).isSome = true
      ↔ ((wholeLen t + byteLen s > 3 ∧ containsChar t '.' = false)
          ∨ t = [] ∨ i ≤ byteLen t) := by
  unfold percentageFloatValidator
  by_cases hcap : wholeLen t + byteLen s > 3 ∧ containsChar t '.' = false
  · rw [if_pos hcap]
    simp [hcap]
  · rw [if_neg hcap]
    cases ht : t.isEmpty with
    | true =>
      rw [if_pos (by simp [ht])]
      have hnil : t = [] := by
        cases t
        · rfl
        · exact absurd ht (by simp)
      simp [hnil]
    | false =>
      have htne : t ≠ [] := by
        intro h
        subst h
        exact absurd ht (by simp)
      have hbl : 0 < byteLen t := by
        cases t with
        | nil => exact absurd rfl htne
        | cons c r =>
          rw [byteLen_cons]
          have := utf8Bytes_length_pos c
          omega
      rw [if_neg (by simp [ht])]
      cases hb : byteAt t (i - 1) with
      | none =>
        rw [byteAt_eq_none] at hb
        simp only [Option.isSome_none, Bool.false_eq_true, false_iff]
        intro h
        rcases h with h | h | h
        · exact hcap h
        · exact htne h
        · omega
      | some b =>
        have hlt : i - 1 < byteLen t := byteAt_lt_of_some hb
        have hle : i ≤ byteLen t := by omega
        refine iff_of_true ?_ (Or.inr (Or.inr hle))
        show (if (b == 46 && allNumOrDot t s) = true then some true
              else some (percentageFloatTail t s i)).isSome = true
        split <;> rfl

/-- Counterexample to C6 as stated: the float percentage validator applied to
text `"5"`, candidate `"5"`, index 7 reads `as_bytes()[6]` out of bounds and
aborts rather than returning a verdict. -/
theorem float_validator_aborts : percentageFloatValidator ['5'] ['5'] 7 = none := by
  decide

/-- Claim C4 (amended): at the two-integer-digit boundary the validators accept
exactly the completions of `"100"` and (float variant) entering the fraction,
subject to the earlier rules.  Unsigned variant: with a 2-byte text, a
candidate is accepted iff it is exactly `"0"` and the text starts with `"10"`
(so from `"99"`, `"9"` at 2 is rejected).  Float variant: with a dot-free text
whose pre-dot part is 2 bytes and an index within the text, a candidate is
accepted iff it is exactly `"."`, or exactly `"0"` with the text starting with
`"10"`; in particular a multi-character `.`-leading digit-like candidate such
as `".5"` is rejected by the three-byte cap. -/
theorem percentage_two_digit_boundary :
    (∀ (t s : Str) (i : Nat), byteLen t = 2 →
      (percentageUintValidator t s i = true ↔ s = ['0'] ∧ startsWith t ['1', '0'] = true))
    ∧ (∀ (t s : Str) (i : Nat), containsChar t '.' = false → wholeLen t = 2 → i ≤ byteLen t →
      (percentageFloatValidator t s i = some true
        ↔ s = ['.'] ∨ (s = ['0'] ∧ startsWith t ['1', '0'] = true))) := by
  constructor
  · intro t s i h2
    unfold percentageUintValidator
    rw [h2]
    by_cases hcap : 2 + byteLen s > 3
    · rw [if_pos hcap]
      constructor
      · intro h
        exact absurd h (by simp)
      · rintro ⟨rfl, _⟩
        have hl : byteLen ['0'] = 1 := by decide
        omega
    · rw [if_neg hcap, if_pos rfl]
      by_cases hs : s = ['0']
      · subst hs
        simp
      · simp [hs]
  · intro t s i hnd h2 hi
    have hpre : preDot t = none := preDot_eq_none hnd
    have hbl : byteLen t = 2 := by
      unfold wholeLen at h2
      rw [hpre] at h2
      exact h2
    have htne : t ≠ [] := by
      intro h
      subst h
      simp [byteLen, utf8Encode] at hbl
    have hdotmem : '.' ∉ t := by
      intro h
      rw [containsChar_iff.mpr h] at hnd
      exact Bool.noConfusion hnd
    unfold percentageFloatValidator
    by_cases hcap : wholeLen t + byteLen s > 3 ∧ containsChar t '.' = false
    · rw [if_pos hcap]
      have hc1 := hcap.1
      rw [h2] at hc1
      constructor
      · intro h
        exact absurd h (by simp)
      · intro h
        rcases h with rfl | ⟨rfl, _⟩
        · have hl : byteLen ['.'] = 1 := by decide
          omega
        · have hl : byteLen ['0'] = 1 := by decide
          omega
    · rw [if_neg hcap]
      have hslen : byteLen s ≤ 1 := by
        by_contra hbig
        refine hcap ⟨?_, hnd⟩
        rw [h2]
        omega
      have hemp : t.isEmpty = false := by
        cases t with
        | nil => exact absurd rfl htne
        | cons c r => rfl
      rw [if_neg (by simp [hemp])]
      have hlt : i - 1 < byteLen t := by omega
      obtain ⟨b, hb⟩ : ∃ b, byteAt t (i - 1) = some b := by
        cases hq : byteAt t (i - 1) with
        | none =>
          rw [byteAt_eq_none] at hq
          omega
        | some b => exact ⟨b, rfl⟩
      have hbne : ¬ b = 46 := by
        intro h
        subst h
        exact hdotmem (mem_utf8Encode_dot.mp (byteAt_mem hb))
      rw [hb]
      show (if (b == 46 && allNumOrDot t s) = true then some true
            else some (percentageFloatTail t s i)) = some true ↔ _
      have hbeq : (b == 46 && allNumOrDot t s) = false := by simp [hbne]
      rw [hbeq]
      simp only [Bool.false_eq_true, if_false, Option.some.injEq]
      unfold percentageFloatTail
      rw [h2, if_pos rfl]
      rcases byteLen_le_one hslen with rfl | ⟨c, rfl⟩
      · simp [headIs]
      · by_cases hc : c = '.'
        · subst hc
          have hall : allNumOrDot t ['.'] = true := by simp [allNumOrDot, hnd]
          simp [headIs, hall]
        · by_cases hc0 : c = '0'
          · subst hc0
            have hh : headIs ['0'] '.' = false := by decide
            simp [hh, hnd]
          · have hh : headIs [c] '.' = false := by simp [headIs, hc]
            have h0 : ([c] == ['0']) = false := by simp [hc0]
            simp [hh, h0, hc, hc0]

/-- Witness for C4: from `"99"` the unsigned validator rejects `"9"` at index
2, and the float validator accepts a bare `"."` at index 2. -/
theorem percentage_two_digit_boundary_witness :
    percentageUintValidator ['9', '9'] ['9'] 2 = false
    ∧ percentageFloatValidator ['9', '9'] ['.'] 2 = some true := by
  constructor
  · have h := percentage_two_digit_boundary.1 ['9', '9'] ['9'] 2 (by decide)
    cases hv : percentageUintValidator ['9', '9'] ['9'] 2 with
    | false => rfl
    | true => exact absurd (h.mp hv).1 (by decide)
  · exact (percentage_two_digit_boundary.2 ['9', '9'] ['.'] 2 (by decide) (by decide)
      (by decide)).mpr (Or.inl rfl)

/-- Counterexample to C4 as stated: at the two-digit boundary (`"99"`), the
`.`-leading digit-like candidate `".5"` is rejected by the float validator
(the three-byte cap fires first), although the claim says such candidates are
accepted there. -/
theorem float_boundary_rejects_dot_leading :
    wholeLen ['9', '9'] = 2
    ∧ headIs ['.', '5'] '.' = true
    ∧ allNumOrDot ['9', '9'] ['.', '5'] = true
    ∧ percentageFloatValidator ['9', '9'] ['.', '5'] 2 = some false := by
  decide
